import Mathlib

/-!
Verification of the PCB-Inspector repository.

Images captured by the camera and processed by the inspector are modelled as
grayscale matrices of exact rationals (`List (List ℚ)`): floating-point values
are idealised as `ℚ`, and the BGR→gray conversion (which no claim depends on)
is the identity on this representation.  Library routines from OpenCV/skimage
are embedded by their defining formulas: Python slicing (`a[i:j]` with
negative-index wraparound and clipping), `cv2.resize` (dimension behaviour,
with nearest-neighbour sampling standing in for the interpolation kernel,
which no claim inspects), the SSIM index computed per pixel over local
windows, and `cv2.findContours` as connected components of the binary mask
(only its behaviour on the all-false mask and the bookkeeping of regions is
used by the theorems).  Exceptions raised by library calls and caught by the
repository's `try/except` blocks are modelled with `Option`/`Except`.
-/

/-! ## Python primitives -/

/-- Python `int()` applied to a float: truncation toward zero. -/
def pyInt (q : ℚ) : ℤ := if q < 0 then -⌊-q⌋ else ⌊q⌋

/-- Clip an (possibly negative) Python index into `[0, n]`, as list slicing
does: negative indices count from the end, and out-of-range indices saturate. -/
def pyClip (n : ℕ) (i : ℤ) : ℕ := if i < 0 then ((n : ℤ) + i).toNat else min i.toNat n

/-- Python slice `l[a:b]` (step 1). -/
def pySlice {α : Type} (l : List α) (a b : ℤ) : List α :=
  (l.drop (pyClip l.length a)).take (pyClip l.length b - pyClip l.length a)

lemma pyClip_le (n : ℕ) (i : ℤ) : pyClip n i ≤ n := by
  unfold pyClip; split <;> omega

lemma pySlice_length {α : Type} (l : List α) (a b : ℤ) :
    (pySlice l a b).length = pyClip l.length b - pyClip l.length a := by
  have hb := pyClip_le l.length b
  simp only [pySlice, List.length_take, List.length_drop]
  omega

lemma pySlice_subset {α : Type} (l : List α) (a b : ℤ) (x : α)
    (hx : x ∈ pySlice l a b) : x ∈ l := by
  unfold pySlice at hx
  exact List.mem_of_mem_drop (List.mem_of_mem_take hx)

/-- Core fact behind centred cropping: slicing `l[y1 : y1 + c]` with
`y1 = (n - c) // 2` is nonempty whenever `1 ≤ c ≤ 2n`. -/
lemma pyClip_center_lt (n : ℕ) (c : ℤ) (h1 : 1 ≤ c) (h2 : c ≤ 2 * n) :
    pyClip n (((n : ℤ) - c) / 2) < pyClip n (((n : ℤ) - c) / 2 + c) := by
  unfold pyClip; split_ifs <;> omega

/-! ## Images -/

/-- Grayscale image: a list of pixel rows. -/
abbrev Img := List (List ℚ)

/-- Number of pixel rows (`shape[0]`). -/
def imgH (g : Img) : ℕ := g.length

/-- Number of pixel columns (`shape[1]`), read off the first row. -/
def imgW (g : Img) : ℕ := (g.headD []).length

/-- Pixel access with a zero default outside the stored data. -/
def px (g : Img) (i j : ℕ) : ℚ := (g.getD i []).getD j 0

/-- A `numpy` array is rectangular: every row has the image width. -/
def Rect (g : Img) : Prop := ∀ r ∈ g, r.length = imgW g

/-- Nearest-neighbour resampling of `g` to `h` rows and `w` columns.  It
stands in for `cv2.resize`'s interpolation; every claim about `resize`
concerns only the output dimensions. -/
def resizeNN (g : Img) (h w : ℕ) : Img :=
  (List.range h).map fun i => (List.range w).map fun j =>
    px g (i * imgH g / h) (j * imgW g / w)

/-- `cv2.resize`, which raises on an empty source or an empty target size;
the raising paths are modelled by `none`. -/
def cvResize (g : Img) (h w : ℕ) : Option Img :=
  if imgH g = 0 ∨ imgW g = 0 ∨ h = 0 ∨ w = 0 then none
  else some (resizeNN g h w)

lemma resizeNN_height (g : Img) (h w : ℕ) : imgH (resizeNN g h w) = h := by
  simp [resizeNN, imgH]

lemma resizeNN_width (g : Img) (h w : ℕ) (hh : 1 ≤ h) : imgW (resizeNN g h w) = w := by
  unfold resizeNN imgW
  obtain ⟨h', rfl⟩ : ∃ h', h = h' + 1 := ⟨h - 1, by omega⟩
  simp [List.range_succ_eq_map]

lemma cvResize_eq_some (g : Img) (h w : ℕ) (h1 : 1 ≤ imgH g) (h2 : 1 ≤ imgW g)
    (h3 : 1 ≤ h) (h4 : 1 ≤ w) : cvResize g h w = some (resizeNN g h w) := by
  unfold cvResize
  rw [if_neg (by omega)]

/-! ## CameraManager (src/camera.py)

State of a `CameraManager` and its zoom / board-detection operations.  The
hardware capture object `self.cap` is outside the model; `set_zoom`'s
best-effort call to `CAP_PROP_ZOOM` has no observable effect on the state. -/

structure CamState where
  zoomLevel : ℚ
  minZoom : ℚ
  maxZoom : ℚ
  isConnected : Bool
  boardDetectionEnabled : Bool
  minBoardArea : ℚ
  boardConfidenceThreshold : ℚ
deriving DecidableEq

/-- Field defaults assigned in `CameraManager.__init__`. -/
def initCamState : CamState :=
  { zoomLevel := 1, minZoom := 1/2, maxZoom := 4, isConnected := false,
    boardDetectionEnabled := true, minBoardArea := 10000,
    boardConfidenceThreshold := 7/10 }

/-- `CameraManager._apply_zoom`: centred crop of size `frameSize / zoomLevel`
(truncated), then resize back to the frame size.  `cv2.resize` raising on an
empty crop is the `none` outcome. -/
def applyZoom (zoom : ℚ) (frame : Img) : Option Img :=
  if zoom = 1 then some frame
  else
    let h := imgH frame
    let w := imgW frame
    let cw := pyInt ((w : ℚ) / zoom)
    let ch := pyInt ((h : ℚ) / zoom)
    let x1 := ((w : ℤ) - cw) / 2
    let y1 := ((h : ℤ) - ch) / 2
    let cropped := (pySlice frame y1 (y1 + ch)).map fun r => pySlice r x1 (x1 + cw)
    cvResize cropped h w

/-- `CameraManager.set_zoom`: returns the updated state and the `bool`
result. -/
def setZoom (s : CamState) (z : ℚ) : CamState × Bool :=
  if s.isConnected = false then (s, false)
  else ({ s with zoomLevel := max s.minZoom (min s.maxZoom z) }, true)

/-! ## Zoom crop arithmetic -/

lemma pyInt_nonneg (q : ℚ) (h : 0 ≤ q) : pyInt q = ⌊q⌋ := by
  unfold pyInt
  rw [if_neg (by linarith)]

/-- For `1/2 ≤ z` and a dimension `n` with `1 ≤ ⌊n / z⌋`, the truncated crop
size `c = int(n / z)` satisfies `1 ≤ c ≤ 2n`. -/
lemma crop_size_bounds (n : ℕ) (z : ℚ) (hz : 1/2 ≤ z)
    (hc : 1 ≤ pyInt ((n : ℚ) / z)) :
    1 ≤ pyInt ((n : ℚ) / z) ∧ pyInt ((n : ℚ) / z) ≤ 2 * n := by
  have hz0 : 0 < z := by linarith
  have hq : (0 : ℚ) ≤ (n : ℚ) / z := by positivity
  rw [pyInt_nonneg _ hq] at hc ⊢
  refine ⟨hc, ?_⟩
  have hle : ((n : ℚ) / z) ≤ 2 * n := by
    rw [div_le_iff₀ hz0]
    nlinarith [Nat.cast_nonneg (α := ℚ) n]
  have := Int.floor_le_floor hle
  calc ⌊(n : ℚ) / z⌋ ≤ ⌊(2 * n : ℚ)⌋ := by exact_mod_cast this
    _ = 2 * n := by
        norm_cast

lemma pySlice_center_ne_nil {α : Type} (l : List α) (c : ℤ)
    (h1 : 1 ≤ c) (h2 : c ≤ 2 * l.length) :
    pySlice l (((l.length : ℤ) - c) / 2) ((((l.length : ℤ) - c) / 2) + c) ≠ [] := by
  have hlt := pyClip_center_lt l.length c h1 h2
  have hlen := pySlice_length l (((l.length : ℤ) - c) / 2) ((((l.length : ℤ) - c) / 2) + c)
  intro hnil
  rw [hnil] at hlen
  simp at hlen
  omega

lemma pySlice_center_length {α : Type} (l : List α) (c : ℤ)
    (h1 : 1 ≤ c) (h2 : c ≤ 2 * l.length) :
    1 ≤ (pySlice l (((l.length : ℤ) - c) / 2) ((((l.length : ℤ) - c) / 2) + c)).length := by
  have hlt := pyClip_center_lt l.length c h1 h2
  rw [pySlice_length]
  omega

lemma pyInt_div_pos_dim (n : ℕ) (z : ℚ) (hz : 0 < z)
    (hc : 1 ≤ pyInt ((n : ℚ) / z)) : 1 ≤ n := by
  by_contra hn
  have hn0 : n = 0 := by omega
  subst hn0
  rw [pyInt_nonneg _ (by positivity)] at hc
  simp at hc

/-- CLAIM C7 (amended): for every rectangular frame and zoom level in
`[0.5, 4.0]` for which the computed centred crop is nonempty in both
dimensions (`1 ≤ int(dim / zoomLevel)`, which holds for any frame of at
least `4×4` pixels), `applyZoom` returns an image whose height and width
equal those of the input frame. -/
theorem applyZoom_preserves_dims (frame : Img) (z : ℚ)
    (hrect : Rect frame) (hz1 : 1/2 ≤ z) (hz2 : z ≤ 4)
    (hch : 1 ≤ pyInt ((imgH frame : ℚ) / z))
    (hcw : 1 ≤ pyInt ((imgW frame : ℚ) / z)) :
    ∃ out, applyZoom z frame = some out ∧
      imgH out = imgH frame ∧ imgW out = imgW frame := by
  have hz0 : 0 < z := by linarith
  by_cases hz : z = 1
  · exact ⟨frame, by rw [applyZoom, if_pos hz], rfl, rfl⟩
  · have hh1 : 1 ≤ imgH frame := pyInt_div_pos_dim _ z hz0 hch
    have hw1 : 1 ≤ imgW frame := pyInt_div_pos_dim _ z hz0 hcw
    obtain ⟨hch1, hch2⟩ := crop_size_bounds (imgH frame) z hz1 hch
    obtain ⟨hcw1, hcw2⟩ := crop_size_bounds (imgW frame) z hz1 hcw
    set ch := pyInt ((imgH frame : ℚ) / z) with hchdef
    set cw := pyInt ((imgW frame : ℚ) / z) with hcwdef
    set y1 := ((imgH frame : ℤ) - ch) / 2 with hy1
    set x1 := ((imgW frame : ℤ) - cw) / 2 with hx1
    set rows := pySlice frame y1 (y1 + ch) with hrows
    have hrowsne : rows ≠ [] := by
      rw [hrows, hy1]
      exact pySlice_center_ne_nil frame ch hch1 (by rw [imgH] at hch2; omega)
    set cropped := rows.map (fun r => pySlice r x1 (x1 + cw)) with hcropped
    have hcH : 1 ≤ imgH cropped := by
      rw [hcropped, imgH, List.length_map]
      rw [hrows, hy1]
      exact pySlice_center_length frame ch hch1 (by rw [imgH] at hch2; omega)
    obtain ⟨r0, rest, hr0⟩ := List.exists_cons_of_ne_nil hrowsne
    have hr0mem : r0 ∈ frame := by
      apply pySlice_subset frame y1 (y1 + ch)
      rw [← hrows, hr0]; exact List.mem_cons_self _ _
    have hr0len : r0.length = imgW frame := hrect r0 hr0mem
    have hcW : 1 ≤ imgW cropped := by
      rw [hcropped, hr0, List.map_cons, imgW, List.headD_cons]
      have := pySlice_center_length r0 cw hcw1 (by rw [hr0len]; omega)
      rw [hr0len] at this
      exact this
    refine ⟨resizeNN cropped (imgH frame) (imgW frame), ?_, ?_, ?_⟩
    · rw [applyZoom, if_neg hz]
      simp only
      rw [← hchdef, ← hcwdef, ← hy1, ← hx1, ← hrows, ← hcropped]
      exact cvResize_eq_some cropped _ _ hcH hcW hh1 hw1
    · exact resizeNN_height cropped _ _
    · exact resizeNN_width cropped _ _ hh1

/-- CLAIM C7 (counterexample): on a `2×2` frame with the in-range zoom level
`3.0`, the computed crop size `int(2 / 3) = 0` is empty, and `cv2.resize`
raises rather than returning an image of the frame's dimensions: no image is
returned at all. -/
theorem applyZoom_counterexample :
    applyZoom 3 [[0, 0], [0, 0]] = none := by
  have h1 : pyInt ((2 : ℚ) / 3) = 0 := by
    rw [pyInt_nonneg _ (by norm_num)]
    norm_num
  rw [applyZoom, if_neg (by norm_num)]
  simp only [imgH, imgW, List.length_cons, List.length_nil, List.headD_cons]
  norm_num [h1]
  have hs : pySlice ([[0, 0], [0, 0]] : Img) 1 1 = [] := by
    rw [pySlice]
    simp [pyClip]
  rw [hs]
  simp [cvResize, imgH]

/-- CLAIM C7 (witness): a concrete `4×4` frame at zoom `2.0`. -/
def wFrame : Img := [[0,0,0,0],[0,0,0,0],[0,0,0,0],[0,0,0,0]]

theorem applyZoom_preserves_dims_witness :
    ∃ out, applyZoom 2 wFrame = some out ∧
      imgH out = imgH wFrame ∧ imgW out = imgW wFrame := by
  apply applyZoom_preserves_dims wFrame 2
  · intro r hr
    simp only [wFrame, List.mem_cons, List.not_mem_nil, or_false] at hr
    rcases hr with h | h | h | h <;> simp [h, imgW, wFrame]
  · norm_num
  · norm_num
  · rw [show imgH wFrame = 4 by rfl, pyInt_nonneg _ (by norm_num)]
    norm_num
  · rw [show imgW wFrame = 4 by rfl, pyInt_nonneg _ (by norm_num)]
    norm_num

/-! ## Board detection (`CameraManager.detect_board`)

The grayscale/blur/threshold/Canny front end of `detect_board` produces a
contour list through `cv2.findContours`; the detection logic consumes each
contour only through the scalar quantities below, over which the filter and
scoring code is embedded verbatim. -/

structure Contour where
  area : ℚ
  perimeter : ℚ
  vertices : ℕ
  x : ℕ
  y : ℕ
  w : ℕ
  h : ℕ
deriving DecidableEq

/-- Aspect ratio `w / h if h > 0 else 0`. -/
def aspectOf (c : Contour) : ℚ := if 0 < c.h then (c.w : ℚ) / c.h else 0

/-- Combined confidence score of a candidate, with the code's guards for a
degenerate bounding rectangle or perimeter. -/
def confOf (c : Contour) : ℚ :=
  let areaFactor := min 1 (c.area / 50000)
  let rectArea := ((c.w : ℚ) * c.h)
  let shapeFactor := if 0 < rectArea then c.area / rectArea else 0
  let edgeDensity := if 0 < c.perimeter then c.area / c.perimeter else 0
  let edgeFactor := min 1 (edgeDensity / 10)
  areaFactor * (4/10) + shapeFactor * (3/10) + edgeFactor * (3/10)

/-- The area / vertex-count / aspect-ratio filter producing
`board_candidates`. -/
def boardCandidates (minArea : ℚ) (cs : List Contour) : List Contour :=
  cs.filter fun c =>
    decide (minArea ≤ c.area) && decide (4 ≤ c.vertices) && decide (c.vertices ≤ 6) &&
    decide ((1:ℚ)/2 ≤ aspectOf c) && decide (aspectOf c ≤ 2)

/-- Python `max(candidates, key=confidence)`: first maximal element wins. -/
def maxByConf (b : Contour) : List Contour → Contour
  | [] => b
  | c :: cs => maxByConf (if confOf b < confOf c then c else b) cs

/-- `CameraManager.detect_board` from the contour list onward. -/
def detectBoard (s : CamState) (cs : List Contour) : Option Contour :=
  if s.boardDetectionEnabled = false then none
  else
    match boardCandidates s.minBoardArea cs with
    | [] => none
    | c :: rest =>
      let best := maxByConf c rest
      if s.boardConfidenceThreshold ≤ confOf best then some best else none

/-- `CameraManager.auto_zoom_to_board`: plan a zoom fitting the detected
board with a 10% margin, clamp it through `set_zoom`, and return the new
state together with the zoomed frame (or `none` when no board is found). -/
def autoZoomToBoard (s : CamState) (frame : Img) (cs : List Contour) :
    CamState × Option Img :=
  match detectBoard s cs with
  | none => (s, none)
  | some b =>
    let margin : ℚ := 1/10
    let targetZoomW := (imgW frame : ℚ) / ((b.w : ℚ) * (1 + margin))
    let targetZoomH := (imgH frame : ℚ) / ((b.h : ℚ) * (1 + margin))
    let targetZoom := min targetZoomW targetZoomH
    let s2 := (setZoom s targetZoom).1
    (s2, applyZoom s2.zoomLevel frame)

lemma maxByConf_mem (b : Contour) (cs : List Contour) :
    maxByConf b cs = b ∨ maxByConf b cs ∈ cs := by
  induction cs generalizing b with
  | nil => exact Or.inl rfl
  | cons c cs ih =>
    rcases ih (if confOf b < confOf c then c else b) with h | h
    · rw [maxByConf, h]
      split
      · exact Or.inr (List.mem_cons_self _ _)
      · exact Or.inl rfl
    · exact Or.inr (List.mem_cons_of_mem _ (by rw [maxByConf]; exact h))

lemma maxByConf_ge (b : Contour) (cs : List Contour) :
    confOf b ≤ confOf (maxByConf b cs) ∧
      ∀ d ∈ cs, confOf d ≤ confOf (maxByConf b cs) := by
  induction cs generalizing b with
  | nil => exact ⟨le_refl _, by simp⟩
  | cons c cs ih =>
    obtain ⟨h1, h2⟩ := ih (if confOf b < confOf c then c else b)
    rw [maxByConf]
    constructor
    · refine le_trans ?_ h1
      split <;> [linarith [lt_of_lt_of_le (by assumption : confOf b < confOf c) (le_refl (confOf c))]; exact le_refl _]
    · intro d hd
      rcases List.mem_cons.1 hd with rfl | hd
      · refine le_trans ?_ h1
        split <;> [exact le_refl _; linarith [not_lt.1 (by assumption)]]
      · exact h2 d hd

/-- Confidence formula exactly as the specification words it:
`0.4·min(1, area/50000) + 0.3·(area/(w·h)) + 0.3·min(1, (area/perimeter)/10)`. -/
def specConfidence (c : Contour) : ℚ :=
  4/10 * min 1 (c.area / 50000) + 3/10 * (c.area / ((c.w : ℚ) * c.h)) +
    3/10 * min 1 ((c.area / c.perimeter) / 10)

lemma mem_boardCandidates {m : ℚ} {cs : List Contour} {c : Contour}
    (h : c ∈ boardCandidates m cs) :
    m ≤ c.area ∧ 4 ≤ c.vertices ∧ c.vertices ≤ 6 ∧
      1/2 ≤ aspectOf c ∧ aspectOf c ≤ 2 := by
  unfold boardCandidates at h
  rw [List.mem_filter] at h
  have h2 := h.2
  simp only [Bool.and_eq_true, decide_eq_true_eq] at h2
  tauto

lemma candidate_pos_dims {m : ℚ} {cs : List Contour} {c : Contour}
    (h : c ∈ boardCandidates m cs) : 0 < c.w ∧ 0 < c.h := by
  obtain ⟨-, -, -, har, -⟩ := mem_boardCandidates h
  by_cases hh : 0 < c.h
  · refine ⟨?_, hh⟩
    by_contra hw
    have hw0 : c.w = 0 := by omega
    rw [aspectOf, if_pos hh, hw0] at har
    norm_num at har
  · rw [aspectOf, if_neg hh] at har
    norm_num at har

/-- CLAIM C9: every contour surviving the area, vertex-count and
aspect-ratio filters is scored by the composite confidence
`0.4·min(1, area/50000) + 0.3·(area/(w·h)) + 0.3·min(1, (area/perimeter)/10)`
(the perimeter guard is vacuous for a contour with positive perimeter), and
`detect_board` returns a highest-confidence candidate exactly when its
confidence reaches `boardConfidenceThreshold`; `none` is returned exactly
when every surviving candidate scores strictly below the threshold. -/
theorem detect_board_spec (s : CamState) (cs : List Contour)
    (hen : s.boardDetectionEnabled = true) :
    (∀ c ∈ boardCandidates s.minBoardArea cs, 0 < c.perimeter →
        confOf c = specConfidence c) ∧
    (∀ c, detectBoard s cs = some c →
        c ∈ boardCandidates s.minBoardArea cs ∧
        s.boardConfidenceThreshold ≤ confOf c ∧
        ∀ d ∈ boardCandidates s.minBoardArea cs, confOf d ≤ confOf c) ∧
    (detectBoard s cs = none ↔
        ∀ c ∈ boardCandidates s.minBoardArea cs,
          confOf c < s.boardConfidenceThreshold) := by
  refine ⟨?_, ?_⟩
  · intro c hc hp
    obtain ⟨hw, hh⟩ := candidate_pos_dims hc
    have hwq : (0:ℚ) < (c.w : ℚ) * c.h := by
      have h1 : (0:ℚ) < (c.w : ℚ) := by exact_mod_cast hw
      have h2 : (0:ℚ) < (c.h : ℚ) := by exact_mod_cast hh
      positivity
    simp only [confOf, specConfidence]
    rw [if_pos hwq, if_pos hp]
    ring
  cases hbc : boardCandidates s.minBoardArea cs with
  | nil =>
    have hdb : detectBoard s cs = none := by
      unfold detectBoard
      rw [hen, hbc]
      rfl
    rw [hdb]
    refine ⟨(by intro c h; cases h), by simp⟩
  | cons c rest =>
    have hdb : detectBoard s cs =
        (if s.boardConfidenceThreshold ≤ confOf (maxByConf c rest)
          then some (maxByConf c rest) else none) := by
      unfold detectBoard
      rw [hen, hbc]
      rfl
    have hmem : maxByConf c rest ∈ c :: rest := by
      rcases maxByConf_mem c rest with h | h
      · rw [h]; exact List.mem_cons_self _ _
      · exact List.mem_cons_of_mem _ h
    have hge : ∀ d ∈ c :: rest, confOf d ≤ confOf (maxByConf c rest) := by
      intro d hd
      rcases List.mem_cons.1 hd with rfl | hd
      · exact (maxByConf_ge d rest).1
      · exact (maxByConf_ge c rest).2 d hd
    rw [hdb]
    by_cases hθ : s.boardConfidenceThreshold ≤ confOf (maxByConf c rest)
    · rw [if_pos hθ]
      constructor
      · intro b hb
        obtain rfl : maxByConf c rest = b := by injection hb
        exact ⟨hmem, hθ, hge⟩
      · constructor
        · intro h; cases h
        · intro hall
          exact absurd hθ (not_le.2 (hall _ hmem))
    · rw [if_neg hθ]
      constructor
      · intro b hb; cases hb
      · refine ⟨fun _ d hd => ?_, fun _ => rfl⟩
        have := hge d hd
        have hlt := not_le.1 hθ
        linarith

/-- A connected camera with the constructor defaults. -/
def camConn : CamState := { initCamState with isConnected := true }

/-- A contour scoring confidence `1`: area `50000`, perimeter `1000`,
`4` vertices, bounding rectangle `250×200`. -/
def boardC : Contour :=
  { area := 50000, perimeter := 1000, vertices := 4, x := 0, y := 0, w := 250, h := 200 }

lemma confOf_boardC : confOf boardC = 1 := by
  simp only [confOf, boardC]
  norm_num

lemma boardCandidates_boardC :
    boardCandidates camConn.minBoardArea [boardC] = [boardC] := by
  simp only [boardCandidates, camConn, initCamState, List.filter, aspectOf, boardC]
  norm_num

lemma detectBoard_boardC : detectBoard camConn [boardC] = some boardC := by
  unfold detectBoard
  rw [boardCandidates_boardC]
  have h1 : camConn.boardDetectionEnabled = true := rfl
  rw [h1]
  simp only [Bool.true_eq_false, if_false, maxByConf]
  rw [if_pos (by rw [confOf_boardC]; norm_num [camConn, initCamState])]

/-- CLAIM C9 (witness): the filter, scoring and selection facts instantiated
at the default camera configuration and the single contour `boardC`. -/
theorem detect_board_spec_witness :
    (∀ c ∈ boardCandidates camConn.minBoardArea [boardC], 0 < c.perimeter →
        confOf c = specConfidence c) ∧
    (∀ c, detectBoard camConn [boardC] = some c →
        c ∈ boardCandidates camConn.minBoardArea [boardC] ∧
        camConn.boardConfidenceThreshold ≤ confOf c ∧
        ∀ d ∈ boardCandidates camConn.minBoardArea [boardC], confOf d ≤ confOf c) ∧
    (detectBoard camConn [boardC] = none ↔
        ∀ c ∈ boardCandidates camConn.minBoardArea [boardC],
          confOf c < camConn.boardConfidenceThreshold) :=
  detect_board_spec camConn [boardC] rfl

lemma setZoom_mem_range (s : CamState) (z : ℚ) (hc : s.isConnected = true)
    (hmm : s.minZoom ≤ s.maxZoom) :
    s.minZoom ≤ (setZoom s z).1.zoomLevel ∧ (setZoom s z).1.zoomLevel ≤ s.maxZoom ∧
      (setZoom s z).2 = true := by
  unfold setZoom
  rw [hc]
  simp only [Bool.true_eq_false, if_false]
  exact ⟨le_max_left _ _, max_le hmm (min_le_left _ _), by trivial⟩

/-- CLAIM C8: on a connected camera with a consistent zoom range (as the
defaults `[0.5, 4.0]` are), any requested zoom level — including any level the
auto-zoom planner computes from an arbitrary detected bounding box — leaves
the stored zoom level inside `[minZoom, maxZoom]`, and the request reports
success rather than an error. -/
theorem zoom_requests_clamped (s : CamState) (z : ℚ)
    (hc : s.isConnected = true) (hmm : s.minZoom ≤ s.maxZoom) :
    (s.minZoom ≤ (setZoom s z).1.zoomLevel ∧
      (setZoom s z).1.zoomLevel ≤ s.maxZoom ∧ (setZoom s z).2 = true) ∧
    ∀ (frame : Img) (cs : List Contour), (detectBoard s cs).isSome = true →
      s.minZoom ≤ (autoZoomToBoard s frame cs).1.zoomLevel ∧
        (autoZoomToBoard s frame cs).1.zoomLevel ≤ s.maxZoom := by
  refine ⟨setZoom_mem_range s z hc hmm, ?_⟩
  intro frame cs hsome
  obtain ⟨b, hb⟩ := Option.isSome_iff_exists.1 hsome
  unfold autoZoomToBoard
  rw [hb]
  simp only
  obtain ⟨h1, h2, -⟩ := setZoom_mem_range s
    (min ((imgW frame : ℚ) / ((b.w : ℚ) * (1 + 1/10)))
      ((imgH frame : ℚ) / ((b.h : ℚ) * (1 + 1/10)))) hc hmm
  exact ⟨h1, h2⟩

/-- CLAIM C8 (witness): a far out-of-range request (`zoom 100`) on the
connected default camera, and an auto-zoom on a concrete frame and contour. -/
theorem zoom_requests_clamped_witness :
    (camConn.minZoom ≤ (setZoom camConn 100).1.zoomLevel ∧
      (setZoom camConn 100).1.zoomLevel ≤ camConn.maxZoom ∧
      (setZoom camConn 100).2 = true) ∧
    (camConn.minZoom ≤ (autoZoomToBoard camConn wFrame [boardC]).1.zoomLevel ∧
      (autoZoomToBoard camConn wFrame [boardC]).1.zoomLevel ≤ camConn.maxZoom) :=
  ⟨(zoom_requests_clamped camConn 100 rfl (by norm_num [camConn, initCamState])).1,
    (zoom_requests_clamped camConn 100 rfl (by norm_num [camConn, initCamState])).2
      wFrame [boardC] (by rw [detectBoard_boardC]; rfl)⟩

/-! ## Structural similarity (`skimage.metrics.structural_similarity`)

SSIM with the library defaults used by the inspector: uniform `7×7` local
windows (clipped at the borders), `K1 = 0.01`, `K2 = 0.03` and data range
`255`, computed per pixel over exact rationals; `full=True` returns the mean
together with the per-pixel map.  The normalisation constant of the sample
(co)variance cancels from every property proved here and population
statistics are used.  The library raises on images of different shapes and on
any image with a dimension smaller than the `7`-pixel window; those paths are
the `Except.error` outcomes. -/

def ssimC1 : ℚ := (51 / 20) ^ 2

def ssimC2 : ℚ := (153 / 20) ^ 2

/-- Row (or column) indices inside the radius-3 window around `i`. -/
def winIdx (n i : ℕ) : List ℕ :=
  (List.range n).filter fun a => decide (i ≤ a + 3) && decide (a ≤ i + 3)

/-- Pixel coordinates of the local window around `(i, j)`. -/
def winCoords (hgt wid i j : ℕ) : List (ℕ × ℕ) :=
  (winIdx hgt i).flatMap fun a => (winIdx wid j).map fun b => (a, b)

def listMean (l : List ℚ) : ℚ := l.sum / l.length

/-- SSIM value at pixel `(i, j)` from the window statistics of the two
images. -/
def ssimVal (x y : Img) (hgt wid i j : ℕ) : ℚ :=
  let cs := winCoords hgt wid i j
  let xs := cs.map fun p => px x p.1 p.2
  let ys := cs.map fun p => px y p.1 p.2
  let ux := listMean xs
  let uy := listMean ys
  let vx := listMean (xs.map fun v => (v - ux) ^ 2)
  let vy := listMean (ys.map fun v => (v - uy) ^ 2)
  let vxy := listMean (cs.map fun p => (px x p.1 p.2 - ux) * (px y p.1 p.2 - uy))
  ((2 * ux * uy + ssimC1) * (2 * vxy + ssimC2)) /
    ((ux ^ 2 + uy ^ 2 + ssimC1) * (vx + vy + ssimC2))

/-- The full SSIM map (one value per pixel of the common shape). -/
def ssimMap (x y : Img) : Img :=
  (List.range (imgH x)).map fun i =>
    (List.range (imgW x)).map fun j => ssimVal x y (imgH x) (imgW x) i j

/-- `structural_similarity(x, y, full=True)`: raises on images of different
shapes and on any image whose smaller dimension is below the default
`win_size = 7`. -/
def ssimFull (x y : Img) : Except String (ℚ × Img) :=
  if imgH x ≠ imgH y ∨ imgW x ≠ imgW y then .error "Input images must have the same dimensions."
  else if imgH x < 7 ∨ imgW x < 7 then .error "win_size exceeds image extent."
  else
    let m := ssimMap x y
    .ok (listMean m.flatten, m)

lemma listMean_sq_nonneg (l : List ℚ) : 0 ≤ listMean (l.map fun v => (v - listMean l) ^ 2) := by
  unfold listMean
  apply div_nonneg
  · apply List.sum_nonneg
    intro q hq
    obtain ⟨v, -, rfl⟩ := List.mem_map.1 hq
    positivity
  · positivity

/-- SSIM of an image with itself is `1` at every pixel: the covariance equals
the variance, so numerator and denominator coincide and are positive. -/
lemma ssimVal_self (x : Img) (hgt wid i j : ℕ) : ssimVal x x hgt wid i j = 1 := by
  unfold ssimVal
  simp only
  set cs := winCoords hgt wid i j
  set u := listMean (cs.map fun p => px x p.1 p.2) with hu
  have hcov : (cs.map fun p => (px x p.1 p.2 - u) * (px x p.1 p.2 - u)) =
      (cs.map fun p => px x p.1 p.2).map fun w => (w - u) ^ 2 := by
    rw [List.map_map]
    apply List.map_congr_left
    intro p _
    simp [sq]
  rw [hcov]
  set v := listMean ((cs.map fun p => px x p.1 p.2).map fun w => (w - u) ^ 2) with hv
  have hvnn : 0 ≤ v := hv ▸ listMean_sq_nonneg _
  have hpos : 0 < (u ^ 2 + u ^ 2 + ssimC1) * (v + v + ssimC2) := by
    have hc1 : (0:ℚ) < ssimC1 := by norm_num [ssimC1]
    have hc2 : (0:ℚ) < ssimC2 := by norm_num [ssimC2]
    have hsq := sq_nonneg u
    have h1 : 0 < u ^ 2 + u ^ 2 + ssimC1 := by positivity
    have h2 : 0 < v + v + ssimC2 := by positivity
    positivity
  rw [show 2 * u * u + ssimC1 = u ^ 2 + u ^ 2 + ssimC1 by ring,
    show 2 * v + ssimC2 = v + v + ssimC2 by ring]
  exact div_self (ne_of_gt hpos)

lemma listMean_ones (l : List ℚ) (hne : l ≠ []) (h1 : ∀ v ∈ l, v = 1) :
    listMean l = 1 := by
  have hsum : l.sum = l.length := by
    induction l with
    | nil => simp
    | cons a t ih =>
      have ha : a = 1 := h1 a (List.mem_cons_self _ _)
      by_cases ht : t = []
      · subst ht; simp [ha]
      · rw [List.sum_cons, ih ht fun v hv => h1 v (List.mem_cons_of_mem _ hv), ha,
          List.length_cons]
        push_cast
        ring
  have hlen : (0:ℚ) < l.length := by
    have := List.length_pos.2 hne
    exact_mod_cast this
  rw [listMean, hsum]
  exact div_self (ne_of_gt hlen)

lemma ssimMap_self_entries (x : Img) :
    ∀ r ∈ ssimMap x x, ∀ v ∈ r, v = 1 := by
  intro r hr v hv
  obtain ⟨i, -, rfl⟩ := List.mem_map.1 hr
  obtain ⟨j, -, rfl⟩ := List.mem_map.1 hv
  exact ssimVal_self x (imgH x) (imgW x) i j

lemma ssimMap_flatten_ne_nil (x y : Img) (hh : 1 ≤ imgH x) (hw : 1 ≤ imgW x) :
    (ssimMap x y).flatten ≠ [] := by
  have hlen : (ssimMap x y).flatten.length = imgH x * imgW x := by
    rw [List.length_flatten, ssimMap, List.map_map]
    have : (List.map (List.length ∘ fun i => (List.range (imgW x)).map
        fun j => ssimVal x y (imgH x) (imgW x) i j) (List.range (imgH x))) =
        List.map (fun _ => imgW x) (List.range (imgH x)) := by
      apply List.map_congr_left
      intro i _
      simp
    rw [this, List.map_const', List.sum_replicate, smul_eq_mul, List.length_range]
  intro hnil
  rw [hnil] at hlen
  simp at hlen
  rcases hlen with h | h <;> omega

/-- SSIM of an image at least `7×7` (the window size) with itself: score `1`
and an all-ones map. -/
lemma ssimFull_self (x : Img) (hh : 7 ≤ imgH x) (hw : 7 ≤ imgW x) :
    ssimFull x x = .ok (1, ssimMap x x) := by
  unfold ssimFull
  rw [if_neg (by simp), if_neg (by omega)]
  simp only
  have h1 : listMean (ssimMap x x).flatten = 1 := by
    apply listMean_ones _ (ssimMap_flatten_ne_nil x x (by omega) (by omega))
    intro v hv
    obtain ⟨r, hr, hvr⟩ := List.mem_flatten.1 hv
    exact ssimMap_self_entries x r hr v hvr
  rw [h1]

/-! ## Image comparison (`PCBInspector.compare_images`)

Contours of the thresholded difference mask are modelled as the 8-connected
components of its set pixels (`cv2.findContours` traces their boundaries;
only which pixel sets exist matters here, and `cv2.contourArea` is abstracted
by the pixel count — the theorems below depend on contour data only through
the all-false mask, which yields no contours under any such model). -/

/-- Coordinates of the set pixels of a binary mask, row-major. -/
def truePixels (mask : List (List Bool)) : List (ℕ × ℕ) :=
  (mask.enum.map fun r => r.2.enum.filterMap fun c =>
    if c.2 then some (r.1, c.1) else none).flatten

/-- 8-neighbourhood adjacency (a pixel is adjacent to itself). -/
def adj8 (p q : ℕ × ℕ) : Bool :=
  decide (p.1 ≤ q.1 + 1) && decide (q.1 ≤ p.1 + 1) &&
    decide (p.2 ≤ q.2 + 1) && decide (q.2 ≤ p.2 + 1)

/-- Insert a pixel into the running component list, merging the components it
touches. -/
def addPix (comps : List (List (ℕ × ℕ))) (p : ℕ × ℕ) : List (List (ℕ × ℕ)) :=
  let t := comps.partition fun c => c.any (adj8 p)
  (p :: t.1.flatten) :: t.2

/-- `cv2.findContours` on a binary mask, as connected components. -/
def findContours (mask : List (List Bool)) : List (List (ℕ × ℕ)) :=
  (truePixels mask).foldl addPix []

/-- `cv2.contourArea`, abstracted by the component's pixel count. -/
def contourArea (c : List (ℕ × ℕ)) : ℚ := c.length

/-- `cv2.boundingRect`: `(x, y, w, h)` of the component. -/
def boundingRect (c : List (ℕ × ℕ)) : ℕ × ℕ × ℕ × ℕ :=
  match c with
  | [] => (0, 0, 0, 0)
  | p :: ps =>
    let xs := (p :: ps).map Prod.snd
    let ys := (p :: ps).map Prod.fst
    let x0 := xs.foldl min p.2
    let y0 := ys.foldl min p.1
    let x1 := xs.foldl max p.2
    let y1 := ys.foldl max p.1
    (x0, y0, x1 - x0 + 1, y1 - y0 + 1)

/-- One entry of `regions_of_interest`. -/
structure Region where
  id : ℕ
  bbox : ℕ × ℕ × ℕ × ℕ
  area : ℚ
  center : ℕ × ℕ
deriving DecidableEq

/-- The dictionary returned by `compare_images` on success.  The
`regions_of_interest` key is an `Option` because client code reads it with
`dict.get` and the error dictionary lacks it. -/
structure CompResult where
  similarityScore : ℚ
  differencePercentage : ℚ
  regionsOfInterest : Option (List Region)
  totalRegions : ℕ
  threshold : ℚ
  passed : Bool
deriving DecidableEq

/-- Outcome of `compare_images`: the result dictionary, or the `{"error": e}`
dictionary produced by the `except` clause. -/
inductive CompOutcome where
  | ok (r : CompResult)
  | err (msg : String)
deriving DecidableEq

/-- Region entry built from an enumerated significant contour. -/
def mkRegion (i : ℕ) (c : List (ℕ × ℕ)) : Region :=
  let b := boundingRect c
  { id := i, bbox := b, area := contourArea c,
    center := (b.1 + b.2.2.1 / 2, b.2.1 + b.2.2.2 / 2) }

/-- Result dictionary built by `compare_images` from the SSIM score and
difference map. -/
def buildResult (ref : Img) (θ score : ℚ) (diff : Img) : CompResult :=
  let mask := diff.map fun row => row.map fun v => decide (v < θ)
  let contours := findContours mask
  let significant := contours.filter fun c => decide ((100:ℚ) < contourArea c)
  let regions := significant.enum.map fun ic => mkRegion ic.1 ic.2
  let totalPixels := imgH ref * imgW ref
  let diffPixels := (truePixels mask).length
  { similarityScore := score,
    differencePercentage := (diffPixels : ℚ) / totalPixels * 100,
    regionsOfInterest := some regions,
    totalRegions := regions.length,
    threshold := θ,
    passed := decide (θ ≤ score) }

/-- The comparison once both images have a common shape. -/
def compareAligned (ref t : Img) (θ : ℚ) : CompOutcome :=
  match ssimFull ref t with
  | .error e => .err e
  | .ok (score, diff) => .ok (buildResult ref θ score diff)

/-- `PCBInspector.compare_images` with similarity threshold `θ`
(default `0.95`): resize the test image onto the reference shape when the
shapes differ, then compare. -/
def compareImages (ref test : Img) (θ : ℚ) : CompOutcome :=
  match (if imgH test = imgH ref ∧ imgW test = imgW ref then some test
        else cvResize test (imgH ref) (imgW ref)) with
  | none => .err "resize failed"
  | some t => compareAligned ref t θ

lemma truePixels_all_false (mask : List (List Bool))
    (h : ∀ r ∈ mask, ∀ b ∈ r, b = false) : truePixels mask = [] := by
  unfold truePixels
  rw [List.flatten_eq_nil_iff]
  intro l hl
  obtain ⟨r, hr, rfl⟩ := List.mem_map.1 hl
  rw [List.filterMap_eq_nil_iff]
  intro c hc
  have hb : c.2 = false :=
    h r.2 (List.snd_mem_of_mem_enum hr) c.2 (List.snd_mem_of_mem_enum hc)
  rw [hb]
  rfl

lemma buildResult_no_diff (ref : Img) (θ score : ℚ) (diff : Img)
    (hθ : ∀ r ∈ diff, ∀ v ∈ r, ¬(v < θ)) :
    buildResult ref θ score diff =
      { similarityScore := score,
        differencePercentage := (0 : ℚ) / (imgH ref * imgW ref) * 100,
        regionsOfInterest := some [],
        totalRegions := 0,
        threshold := θ,
        passed := decide (θ ≤ score) } := by
  simp only [buildResult]
  have hmask : truePixels (diff.map fun row => row.map fun v => decide (v < θ)) = [] := by
    apply truePixels_all_false
    intro r hr b hb
    obtain ⟨row, hrow, rfl⟩ := List.mem_map.1 hr
    obtain ⟨v, hv, rfl⟩ := List.mem_map.1 hb
    exact decide_eq_false (hθ row hrow v hv)
  rw [hmask]
  have hfc : findContours (diff.map fun row => row.map fun v => decide (v < θ)) = [] := by
    unfold findContours
    rw [hmask]
    rfl
  rw [hfc]
  simp only [List.filter_nil, List.enum_nil, List.map_nil, List.length_nil,
    CompResult.mk.injEq]
  norm_num

/-- A `2×2` image — below the `7`-pixel SSIM window in both dimensions. -/
def cImg : Img := [[1, 2], [3, 4]]

/-- A `7×7` image, the smallest shape the SSIM call accepts. -/
def cImg7 : Img :=
  [[1, 2, 3, 4, 5, 6, 7], [2, 3, 4, 5, 6, 7, 8], [3, 4, 5, 6, 7, 8, 9],
   [4, 5, 6, 7, 8, 9, 10], [5, 6, 7, 8, 9, 10, 11], [6, 7, 8, 9, 10, 11, 12],
   [7, 8, 9, 10, 11, 12, 13]]

/-- CLAIM C5 (counterexample): comparing the `2×2` image `cImg` with itself
does not yield a score of `1.0` with zero regions — the SSIM call raises
because the image is smaller than its `7`-pixel window, and `compare_images`
returns the error dictionary. -/
theorem compare_self_small_errors :
    compareImages cImg cImg (95/100) = .err "win_size exceeds image extent." := by
  have h1 : compareImages cImg cImg (95/100) = compareAligned cImg cImg (95/100) := by
    unfold compareImages
    rw [if_pos ⟨rfl, rfl⟩]
  rw [h1]
  unfold compareAligned
  have hs : ssimFull cImg cImg = .error "win_size exceeds image extent." := by
    unfold ssimFull
    rw [if_neg (by simp), if_pos (Or.inl (by decide))]
  rw [hs]

/-- CLAIM C5 (amended): comparing an image of at least `7×7` pixels (the
SSIM window size) with itself at the default threshold yields a similarity
score of exactly `1.0` and an empty regions-of-interest list; smaller images
make the SSIM call raise, so `compare_images` returns the error dictionary
instead. -/
theorem compare_self_perfect (g : Img) (hh : 7 ≤ imgH g) (hw : 7 ≤ imgW g) :
    ∃ r, compareImages g g (95/100) = .ok r ∧ r.similarityScore = 1 ∧
      r.regionsOfInterest = some [] ∧ r.totalRegions = 0 := by
  have h1 : compareImages g g (95/100) = compareAligned g g (95/100) := by
    unfold compareImages
    rw [if_pos ⟨rfl, rfl⟩]
  have h2 : compareAligned g g (95/100) =
      .ok (buildResult g (95/100) 1 (ssimMap g g)) := by
    unfold compareAligned
    rw [ssimFull_self g hh hw]
  have h3 := buildResult_no_diff g (95/100) 1 (ssimMap g g) ?_
  · exact ⟨_, by rw [h1, h2, h3], rfl, rfl, rfl⟩
  · intro r hr v hv
    rw [ssimMap_self_entries g r hr v hv]
    norm_num

/-- CLAIM C5 (witness): the concrete `7×7` image compared with itself. -/
theorem compare_self_perfect_witness :
    ∃ r, compareImages cImg7 cImg7 (95/100) = .ok r ∧ r.similarityScore = 1 ∧
      r.regionsOfInterest = some [] ∧ r.totalRegions = 0 :=
  compare_self_perfect cImg7 (by decide) (by decide)

lemma ssimFull_ok (x y : Img) (hhy : imgH y = imgH x) (hwy : imgW y = imgW x)
    (hh : 7 ≤ imgH x) (hw : 7 ≤ imgW x) :
    ssimFull x y = .ok (listMean (ssimMap x y).flatten, ssimMap x y) := by
  unfold ssimFull
  rw [if_neg (by omega), if_neg (by omega)]

/-- CLAIM C6 (counterexample): with the `2×2` reference `cImg` and a `1×1`
test image, the shapes mismatch, the test image is resized onto the
reference — and `compare_images` still returns an error result, because the
SSIM call then rejects the sub-window-size reference. -/
theorem compare_mismatched_small_ref_errors :
    compareImages cImg [[5]] (95/100) = .err "win_size exceeds image extent." := by
  have hres := cvResize_eq_some [[5]] (imgH cImg) (imgW cImg) (by decide)
    (by decide) (by decide) (by decide)
  set t' := resizeNN [[5]] (imgH cImg) (imgW cImg) with ht'
  have hH : imgH t' = imgH cImg := resizeNN_height _ _ _
  have hW : imgW t' = imgW cImg := resizeNN_width _ _ _ (by decide)
  have heq : compareImages cImg [[5]] (95/100) = compareAligned cImg t' (95/100) := by
    unfold compareImages
    rw [if_neg (by decide), hres]
  rw [heq]
  unfold compareAligned
  have hs : ssimFull cImg t' = .error "win_size exceeds image extent." := by
    unfold ssimFull
    rw [if_neg (by simp [hH, hW]), if_pos (Or.inl (by decide))]
  rw [hs]

/-- CLAIM C6 (amended): when the (nonempty) test image differs in shape from
a reference of at least `7×7` pixels, `compare_images` resizes the test
image — never the reference — onto the reference's dimensions and proceeds
normally on the resized image to a successful result; for a smaller
reference the subsequent SSIM call raises (as it would with matching shapes
too), so the mismatch itself still never causes the error. -/
theorem compare_mismatched_resizes (ref test : Img) (θ : ℚ)
    (hdim : ¬(imgH test = imgH ref ∧ imgW test = imgW ref))
    (h1 : 7 ≤ imgH ref) (h2 : 7 ≤ imgW ref)
    (h3 : 1 ≤ imgH test) (h4 : 1 ≤ imgW test) :
    ∃ t', cvResize test (imgH ref) (imgW ref) = some t' ∧
      imgH t' = imgH ref ∧ imgW t' = imgW ref ∧
      compareImages ref test θ = compareAligned ref t' θ ∧
      ∃ r, compareImages ref test θ = CompOutcome.ok r := by
  have hres := cvResize_eq_some test (imgH ref) (imgW ref) h3 h4 (by omega) (by omega)
  set t' := resizeNN test (imgH ref) (imgW ref) with ht'
  have hH : imgH t' = imgH ref := resizeNN_height test _ _
  have hW : imgW t' = imgW ref := resizeNN_width test _ _ (by omega)
  have heq : compareImages ref test θ = compareAligned ref t' θ := by
    unfold compareImages
    rw [if_neg hdim, hres]
  refine ⟨t', hres, hH, hW, heq, ?_⟩
  rw [heq]
  unfold compareAligned
  rw [ssimFull_ok ref t' hH hW h1 h2]
  exact ⟨_, rfl⟩

/-- CLAIM C6 (witness): the `2×2` test image against the `7×7` reference. -/
theorem compare_mismatched_resizes_witness :
    ∃ t', cvResize cImg (imgH cImg7) (imgW cImg7) = some t' ∧
      imgH t' = imgH cImg7 ∧ imgW t' = imgW cImg7 ∧
      compareImages cImg7 cImg (95/100) = compareAligned cImg7 t' (95/100) ∧
      ∃ r, compareImages cImg7 cImg (95/100) = CompOutcome.ok r :=
  compare_mismatched_resizes cImg7 cImg (95/100) (by decide) (by decide)
    (by decide) (by decide) (by decide)

/-! ## Defect analysis (`PCBInspector.analyze_defects`) -/

/-- One defect record built by `_analyze_region`. -/
structure Defect where
  regionId : ℕ
  bbox : ℕ × ℕ × ℕ × ℕ
  defectType : String
  similarity : ℚ
  confidence : ℚ
deriving DecidableEq

/-- The dictionary returned by `analyze_defects`. -/
structure DefectAnalysis where
  defects : List Defect
  totalDefects : ℕ
  severity : String
deriving DecidableEq

/-- The similarity-band cascade of `_analyze_region` (a record is built in
every case; `defect_type` stays `"unknown"` when no band matches). -/
def bandType (s : ℚ) : String :=
  if s < 3/10 then "missing_component"
  else if s < 7/10 then "misaligned_component"
  else if s < 9/10 then "soldering_defect"
  else "unknown"

/-- Crop `img[y : y+h, x : x+w]`. -/
def cropImg (g : Img) (x y w h : ℕ) : Img :=
  (pySlice g (y : ℤ) ((y : ℤ) + h)).map fun r => pySlice r (x : ℤ) ((x : ℤ) + w)

/-- `PCBInspector._analyze_region`: the SSIM of the two crops classified by
the band cascade; any exception raised inside (here: by the SSIM call) is
caught and yields `None`. -/
def analyzeRegion (ref test : Img) (r : Region) : Option Defect :=
  match ssimFull (cropImg ref r.bbox.1 r.bbox.2.1 r.bbox.2.2.1 r.bbox.2.2.2)
      (cropImg test r.bbox.1 r.bbox.2.1 r.bbox.2.2.1 r.bbox.2.2.2) with
  | .error _ => none
  | .ok (s, _) =>
    some { regionId := r.id, bbox := r.bbox, defectType := bandType s,
           similarity := s, confidence := 1 - s }

/-- `PCBInspector._calculate_severity`: highest-priority defect type present
wins (presence in the `defect_counts` dictionary is presence in the list). -/
def calculateSeverity (defects : List Defect) : String :=
  if defects.isEmpty then "none"
  else if defects.any fun d => d.defectType == "missing_component" then "critical"
  else if defects.any fun d => d.defectType == "misaligned_component" then "high"
  else if defects.any fun d => d.defectType == "soldering_defect" then "medium"
  else "low"

/-- `PCBInspector.analyze_defects`: analyze each region of interest read with
`comparison_result.get("regions_of_interest", [])`. -/
def analyzeDefects (ref test : Img) (comp : CompResult) : DefectAnalysis :=
  let defects := (comp.regionsOfInterest.getD []).filterMap (analyzeRegion ref test)
  { defects := defects, totalDefects := defects.length,
    severity := calculateSeverity defects }

lemma any_type_iff (ds : List Defect) (t : String) :
    (ds.any fun d => d.defectType == t) = true ↔ ∃ d ∈ ds, d.defectType = t := by
  simp [List.any_eq_true]

/-- CLAIM C2: the severity rollup is the highest-priority defect type
present — any MissingComponent gives `"critical"`; otherwise any
MisalignedComponent gives `"high"`; otherwise any SolderingDefect gives
`"medium"`; otherwise a nonempty list gives `"low"`; the empty list gives
`"none"` — and adding a MissingComponent defect to any defect list always
yields `"critical"`. -/
theorem severity_rollup (ds : List Defect) :
    (calculateSeverity [] = "none") ∧
    ((∃ d ∈ ds, d.defectType = "missing_component") →
      calculateSeverity ds = "critical") ∧
    (¬(∃ d ∈ ds, d.defectType = "missing_component") →
      (∃ d ∈ ds, d.defectType = "misaligned_component") →
      calculateSeverity ds = "high") ∧
    (¬(∃ d ∈ ds, d.defectType = "missing_component") →
      ¬(∃ d ∈ ds, d.defectType = "misaligned_component") →
      (∃ d ∈ ds, d.defectType = "soldering_defect") →
      calculateSeverity ds = "medium") ∧
    (ds ≠ [] →
      ¬(∃ d ∈ ds, d.defectType = "missing_component") →
      ¬(∃ d ∈ ds, d.defectType = "misaligned_component") →
      ¬(∃ d ∈ ds, d.defectType = "soldering_defect") →
      calculateSeverity ds = "low") ∧
    (∀ d, d.defectType = "missing_component" →
      calculateSeverity (d :: ds) = "critical") := by
  have hne : ∀ (d : Defect), d ∈ ds → ¬(ds.isEmpty = true) := by
    intro d hd
    simp [List.isEmpty_iff]
    exact List.ne_nil_of_mem hd
  refine ⟨rfl, ?_, ?_, ?_, ?_, ?_⟩
  · rintro ⟨d, hd, hdt⟩
    rw [calculateSeverity, if_neg (hne d hd),
      if_pos ((any_type_iff ds _).2 ⟨d, hd, hdt⟩)]
  · rintro hn ⟨d, hd, hdt⟩
    rw [calculateSeverity, if_neg (hne d hd),
      if_neg (fun hc => hn ((any_type_iff ds _).1 hc)),
      if_pos ((any_type_iff ds _).2 ⟨d, hd, hdt⟩)]
  · rintro hn1 hn2 ⟨d, hd, hdt⟩
    rw [calculateSeverity, if_neg (hne d hd),
      if_neg (fun hc => hn1 ((any_type_iff ds _).1 hc)),
      if_neg (fun hc => hn2 ((any_type_iff ds _).1 hc)),
      if_pos ((any_type_iff ds _).2 ⟨d, hd, hdt⟩)]
  · intro hnil hn1 hn2 hn3
    rw [calculateSeverity, if_neg (by simp [List.isEmpty_iff, hnil]),
      if_neg (fun hc => hn1 ((any_type_iff ds _).1 hc)),
      if_neg (fun hc => hn2 ((any_type_iff ds _).1 hc)),
      if_neg (fun hc => hn3 ((any_type_iff ds _).1 hc))]
  · intro d hdt
    rw [calculateSeverity, if_neg (by simp),
      if_pos ((any_type_iff (d :: ds) _).2 ⟨d, List.mem_cons_self _ _, hdt⟩)]

/-- A concrete soldering defect. -/
def solderD : Defect :=
  { regionId := 1, bbox := (0, 0, 1, 1), defectType := "soldering_defect",
    similarity := 8/10, confidence := 2/10 }

/-- A concrete missing-component defect. -/
def missD : Defect :=
  { regionId := 2, bbox := (0, 0, 1, 1), defectType := "missing_component",
    similarity := 0, confidence := 1 }

/-- CLAIM C2 (witness): `[solderD]` rolls up to `"medium"`, and consing a
missing-component defect onto it yields `"critical"`. -/
theorem severity_rollup_witness :
    calculateSeverity [solderD] = "medium" ∧
      calculateSeverity (missD :: [solderD]) = "critical" := by
  have h := severity_rollup [solderD]
  refine ⟨h.2.2.2.1 ?_ ?_ ?_, h.2.2.2.2.2 missD rfl⟩
  · rintro ⟨d, hd, hdt⟩
    rw [List.mem_singleton] at hd
    subst hd
    exact absurd hdt (by decide)
  · rintro ⟨d, hd, hdt⟩
    rw [List.mem_singleton] at hd
    subst hd
    exact absurd hdt (by decide)
  · exact ⟨solderD, List.mem_singleton.2 rfl, rfl⟩

/-- CLAIM C10: a comparison result carrying no `regions_of_interest` entry
(such as the `{"error": ...}` dictionary `compare_images` returns on
failure) makes `analyze_defects` return an empty defect list, zero total
defects and severity `"none"` instead of raising. -/
theorem analyze_defects_no_regions_key (ref test : Img) (comp : CompResult)
    (h : comp.regionsOfInterest = none) :
    analyzeDefects ref test comp =
      { defects := [], totalDefects := 0, severity := "none" } := by
  simp only [analyzeDefects]
  rw [h]
  rfl

/-- A comparison-result value without the `regions_of_interest` key. -/
def errComp : CompResult :=
  { similarityScore := 0, differencePercentage := 0, regionsOfInterest := none,
    totalRegions := 0, threshold := 95/100, passed := false }

/-- CLAIM C10 (witness). -/
theorem analyze_defects_no_regions_key_witness :
    analyzeDefects cImg cImg errComp =
      { defects := [], totalDefects := 0, severity := "none" } :=
  analyze_defects_no_regions_key cImg cImg errComp rfl

/-- CLAIM C3: every defect emitted by `analyze_defects` carries the id of a
region of interest present in the comparison result it was given. -/
theorem defects_cite_input_regions (ref test : Img) (comp : CompResult) :
    ∀ d ∈ (analyzeDefects ref test comp).defects,
      ∃ r ∈ comp.regionsOfInterest.getD [], d.regionId = r.id := by
  intro d hd
  simp only [analyzeDefects] at hd
  obtain ⟨r, hr, hsome⟩ := List.mem_filterMap.1 hd
  refine ⟨r, hr, ?_⟩
  unfold analyzeRegion at hsome
  cases hs : ssimFull (cropImg ref r.bbox.1 r.bbox.2.1 r.bbox.2.2.1 r.bbox.2.2.2)
      (cropImg test r.bbox.1 r.bbox.2.1 r.bbox.2.2.1 r.bbox.2.2.2) with
  | error e => rw [hs] at hsome; cases hsome
  | ok p =>
    rw [hs] at hsome
    obtain ⟨s, m⟩ := p
    simp only at hsome
    injection hsome with hd2
    rw [← hd2]

/-- A region of interest covering all of the `7×7` image. -/
def exRegion : Region := { id := 0, bbox := (0, 0, 7, 7), area := 49, center := (3, 3) }

/-- A comparison result listing `exRegion`. -/
def exComp : CompResult :=
  { similarityScore := 1/2, differencePercentage := 0,
    regionsOfInterest := some [exRegion], totalRegions := 1,
    threshold := 95/100, passed := false }

/-- The defect `_analyze_region` builds for a region whose crops are
identical (similarity `1`). -/
def exDefect : Defect :=
  { regionId := 0, bbox := (0, 0, 7, 7), defectType := "unknown",
    similarity := 1, confidence := 0 }

lemma cropImg_exRegion : cropImg cImg7 exRegion.bbox.1 exRegion.bbox.2.1
    exRegion.bbox.2.2.1 exRegion.bbox.2.2.2 = cImg7 := rfl

lemma analyzeRegion_exRegion : analyzeRegion cImg7 cImg7 exRegion = some exDefect := by
  unfold analyzeRegion
  rw [cropImg_exRegion, ssimFull_self cImg7 (by decide) (by decide)]
  simp only [Option.some.injEq]
  rw [exDefect]
  have hb : bandType 1 = "unknown" := by
    rw [bandType, if_neg (by norm_num), if_neg (by norm_num), if_neg (by norm_num)]
  rw [show exRegion.id = 0 from rfl, show exRegion.bbox = (0, 0, 7, 7) from rfl, hb]
  norm_num

lemma analyzeDefects_exComp : analyzeDefects cImg7 cImg7 exComp =
    { defects := [exDefect], totalDefects := 1, severity := "low" } := by
  simp only [analyzeDefects]
  rw [show exComp.regionsOfInterest = some [exRegion] from rfl]
  simp only [Option.getD_some, List.filterMap_cons, analyzeRegion_exRegion,
    List.filterMap_nil]
  rfl

/-- CLAIM C1 (counterexample): `exRegion`'s `7×7` crops of the two
(identical) images score structural similarity `1 ≥ 0.9`, yet the defect
classifier does emit a record for that region — carrying
`defect_type = "unknown"` — instead of emitting nothing. -/
theorem high_similarity_still_records_defect :
    (analyzeDefects cImg7 cImg7 exComp).defects = [exDefect] ∧
      (9:ℚ)/10 ≤ exDefect.similarity ∧ exDefect.regionId = exRegion.id := by
  rw [analyzeDefects_exComp]
  exact ⟨rfl, by norm_num [exDefect], rfl⟩

/-- The similarity bands as the specification words them, amended in the
final band: the original claim has no record at all for `0.9 ≤ s`, while the
code emits a record typed `"unknown"`. -/
def specDefectBands (s : ℚ) : Option String :=
  if s < 3/10 then some "missing_component"
  else if 3/10 ≤ s ∧ s < 7/10 then some "misaligned_component"
  else if 7/10 ≤ s ∧ s < 9/10 then some "soldering_defect"
  else some "unknown"

lemma bandType_eq_specBands (s : ℚ) : some (bandType s) = specDefectBands s := by
  unfold bandType specDefectBands
  rcases lt_or_le s (3/10) with h1 | h1
  · rw [if_pos h1, if_pos h1]
  rcases lt_or_le s (7/10) with h2 | h2
  · rw [if_neg (not_lt.2 h1), if_pos h2, if_neg (not_lt.2 h1), if_pos ⟨h1, h2⟩]
  rcases lt_or_le s (9/10) with h3 | h3
  · rw [if_neg (not_lt.2 h1), if_neg (not_lt.2 h2), if_pos h3,
      if_neg (not_lt.2 h1), if_neg (fun hc => absurd h2 (not_le.2 hc.2)),
      if_pos ⟨h2, h3⟩]
  · rw [if_neg (not_lt.2 h1), if_neg (not_lt.2 h2), if_neg (not_lt.2 h3),
      if_neg (not_lt.2 h1), if_neg (fun hc => absurd h2 (not_le.2 hc.2)),
      if_neg (fun hc => absurd h3 (not_le.2 hc.2))]

/-- CLAIM C1 (amended): whenever the structural similarity of a region's
crops is computed as `s`, the classifier emits a defect record for that
region whose type follows the fixed bands — `s < 0.3` MissingComponent,
`0.3 ≤ s < 0.7` MisalignedComponent, `0.7 ≤ s < 0.9` SolderingDefect — and
for `0.9 ≤ s` a record is still emitted, with type `"unknown"` (rather than
no record at all, as originally claimed). -/
theorem analyze_region_band_classification (ref test : Img) (r : Region)
    (s : ℚ) (m : Img)
    (hs : ssimFull (cropImg ref r.bbox.1 r.bbox.2.1 r.bbox.2.2.1 r.bbox.2.2.2)
      (cropImg test r.bbox.1 r.bbox.2.1 r.bbox.2.2.1 r.bbox.2.2.2) = .ok (s, m)) :
    ∃ d, analyzeRegion ref test r = some d ∧
      some d.defectType = specDefectBands s ∧
      d.regionId = r.id ∧ d.similarity = s := by
  unfold analyzeRegion
  rw [hs]
  exact ⟨_, rfl, bandType_eq_specBands s, rfl, rfl⟩

/-- CLAIM C1 (witness): the amended band classification applied to
`exRegion` on identical `7×7` images, whose crops score similarity `1`. -/
theorem analyze_region_band_classification_witness :
    ∃ d, analyzeRegion cImg7 cImg7 exRegion = some d ∧
      some d.defectType = specDefectBands 1 ∧
      d.regionId = exRegion.id ∧ d.similarity = 1 :=
  analyze_region_band_classification cImg7 cImg7 exRegion 1 (ssimMap cImg7 cImg7)
    (by rw [cropImg_exRegion]; exact ssimFull_self cImg7 (by decide) (by decide))

/-- CLAIM C3 (witness): the defect produced for `exRegion` cites a region
present in `exComp`. -/
theorem defects_cite_input_regions_witness :
    ∃ r ∈ exComp.regionsOfInterest.getD [], exDefect.regionId = r.id :=
  defects_cite_input_regions cImg7 cImg7 exComp exDefect
    (by rw [analyzeDefects_exComp]; exact List.mem_singleton.2 rfl)

/-! ## Image alignment (`PCBInspector.align_images`)

The SIFT detector, BF matcher, homography estimator and warp are library
calls whose outputs the function consumes; they enter the embedding as the
fields of `SiftData`, over which the repository's ratio test and the
branching of `align_images` are embedded verbatim. -/

/-- One keypoint match as produced by `knnMatch`. -/
structure SiftMatch where
  queryIdx : ℕ
  trainIdx : ℕ
  distance : ℚ
deriving DecidableEq

/-- Outputs of the library calls inside `align_images`: the two descriptor
sets (`None` when no features are detected), the `knnMatch` result, the
homography (`None` when estimation fails) and the warped image.  The
`knnMatches` field is `matcher.knnMatch(ref_des, test_des, k=2)`. -/
structure SiftData where
  refDes : Option (List (List ℚ))
  testDes : Option (List (List ℚ))
  knnMatches : List (List SiftMatch)
  homography : Option (List (List ℚ))
  warped : Img

/-- The info dictionary returned by `align_images`: either `{"error": msg}`
or the success dictionary. -/
inductive AlignOutcome where
  | err (msg : String)
  | ok (matchesCount : ℕ) (homography : List (List ℚ))
deriving DecidableEq

/-- Lowe's ratio test over the `knnMatch` pairs: keep `m` from each pair
`[m, n]` with `m.distance < 0.75 * n.distance`. -/
def goodMatches (pairs : List (List SiftMatch)) : List SiftMatch :=
  pairs.filterMap fun mp =>
    match mp with
    | [m, n] => if m.distance < 3/4 * n.distance then some m else none
    | _ => none

/-- `PCBInspector.align_images`, returning the image and the info
dictionary. -/
def alignImages (env : SiftData) (testImg : Img) : Img × AlignOutcome :=
  match env.refDes, env.testDes with
  | none, _ => (testImg, .err "No features detected")
  | some _, none => (testImg, .err "No features detected")
  | some _, some _ =>
    let good := goodMatches env.knnMatches
    if good.length < 4 then (testImg, .err "Insufficient matches")
    else
      match env.homography with
      | none => (testImg, .err "Homography computation failed")
      | some hm => (env.warped, .ok good.length hm)

/-- CLAIM C4: whenever descriptors exist on both sides but the ratio test
leaves fewer than `4` good matches, `align_images` fails with the
insufficient-matches reason and returns the original test image itself,
unchanged. -/
theorem align_insufficient_matches (env : SiftData) (testImg : Img)
    (h1 : env.refDes.isSome = true) (h2 : env.testDes.isSome = true)
    (h3 : (goodMatches env.knnMatches).length < 4) :
    alignImages env testImg = (testImg, .err "Insufficient matches") := by
  obtain ⟨a, ha⟩ := Option.isSome_iff_exists.1 h1
  obtain ⟨b, hb⟩ := Option.isSome_iff_exists.1 h2
  unfold alignImages
  rw [ha, hb]
  simp only [if_pos h3]

/-- Library outputs with descriptors on both sides but only one surviving
ratio-test pair. -/
def exSift : SiftData :=
  { refDes := some [[0]], testDes := some [[0]],
    knnMatches := [[⟨0, 0, 1⟩, ⟨0, 1, 2⟩], [⟨1, 0, 5⟩, ⟨1, 1, 6⟩]],
    homography := none, warped := [] }

/-- CLAIM C4 (witness): `exSift` keeps one good match (`1 < 0.75·2`) and
rejects the other (`5 ≥ 0.75·6`), so alignment fails with the original
image returned. -/
theorem align_insufficient_matches_witness :
    alignImages exSift cImg = (cImg, .err "Insufficient matches") := by
  apply align_insufficient_matches exSift cImg rfl rfl
  have hg : goodMatches exSift.knnMatches = [⟨0, 0, 1⟩] := by
    show goodMatches [[⟨0, 0, 1⟩, ⟨0, 1, 2⟩], [⟨1, 0, 5⟩, ⟨1, 1, 6⟩]] = [⟨0, 0, 1⟩]
    unfold goodMatches
    rw [List.filterMap_cons, List.filterMap_cons, List.filterMap_nil]
    simp only
    rw [if_pos (by norm_num), if_neg (by norm_num)]
  rw [hg]
  norm_num
